import Mathlib

/-!
Verification of the product-matching core of `src/backend/scraper.py`
(`match_products`: conflict rules, scorer, confidence gates, greedy
assignment, unified-catalog builder).

Modelling choices of the shallow embedding:
* Prices and similarity scores are rationals; the floats of the code carry exact
  decimal constants (`0.1`, `0.5`, `0.6`, `0.78`, `0.8`) which are represented
  exactly in `ℚ`.
* Identifier sets are `Finset String`, matching Python `set` semantics.
* The embedding provider is external to the core, so the pairwise cosine
  matrix `cosine_scores` is a parameter `sim : Nat → Nat → ℚ`, and the pure
  per-title identifier extraction is a parameter `ext : String → Finset String`.
* Python truthiness of an optional price (`None` and `0.0` falsy) is `qTruthy`.
-/

/-- One scraped listing, the dict built by `scrape_amazon`/`scrape_flipkart`. -/
structure Product where
  title : String
  price : Option ℚ
  image : Option String
  link : Option String
  rating : Option ℚ
  is_prime : Bool
deriving DecidableEq

/-- One output record of `match_products`. In Python the `has_comparison`
key only exists after the final re-id loop; before that loop the field is
modelled as `false`. -/
structure UnifiedProduct where
  id : Nat
  title : String
  image : Option String
  rating : Option ℚ
  is_prime : Bool
  amazon_price : Option ℚ
  amazon_link : Option String
  flipkart_price : Option ℚ
  flipkart_link : Option String
  has_comparison : Bool
deriving DecidableEq

/-- The fields of a `UnifiedProduct` other than `id` and `has_comparison`,
the two fields rewritten by the final re-id loop. -/
structure RecordCore where
  title : String
  image : Option String
  rating : Option ℚ
  is_prime : Bool
  amazon_price : Option ℚ
  amazon_link : Option String
  flipkart_price : Option ℚ
  flipkart_link : Option String
deriving DecidableEq

/-- Forget the `id` and `has_comparison` fields of a record. -/
def core (r : UnifiedProduct) : RecordCore :=
  ⟨r.title, r.image, r.rating, r.is_prime, r.amazon_price, r.amazon_link,
   r.flipkart_price, r.flipkart_link⟩

/-- Entry of `amz_data` (the tensor embedding is replaced by the similarity
matrix parameter; the normalized word set is computed but never read by the
engine, so it is dropped). -/
structure AmzItem where
  p : Product
  identifiers : Finset String
deriving DecidableEq

/-- Entry of `fk_data`; `idx` is the enumeration index into the Flipkart
input list. -/
structure FkItem where
  idx : Nat
  p : Product
  identifiers : Finset String
deriving DecidableEq

/-- Running best-candidate state of the inner loop. `best_match` and
`best_idx` are always assigned together in the code, so they are kept as one
option; `-1`/`None` initial values become `none`. -/
structure BestSt where
  best : Option (Product × Nat)
  bestScore : ℚ
deriving DecidableEq

/-- Python truthiness of an optional price: `None` and `0.0` are falsy. -/
def qTruthy : Option ℚ → Bool
  | none => false
  | some q => decide (q ≠ 0)

/-- `str.startswith(pre)`, computed on the character lists (the byte-level
`String.startsWith` is extensionally the same but does not reduce). -/
def strStartsWith (s pre : String) : Bool := pre.data.isPrefixOf s.data

/-- `str.endswith(suf)`, computed on the character lists. -/
def strEndsWith (s suf : String) : Bool := suf.data.isSuffixOf s.data

/-- Python string replace of `inch` by the empty string: drop every
non-overlapping occurrence of `inch`, scanning left to right. -/
def stripInch : List Char → List Char
  | 'i' :: 'n' :: 'c' :: 'h' :: rest => stripInch rest
  | c :: rest => c :: stripInch rest
  | [] => []

/-- The numeric value of one decimal digit. -/
def charDigit (c : Char) : Option Nat :=
  if c.isDigit then some (c.toNat - 48) else none

/-- Parse a non-empty all-digit string. -/
def parseNat (cs : List Char) : Option Nat :=
  if cs.isEmpty then none
  else cs.foldl (fun acc c =>
    match acc, charDigit c with
    | some n, some d => some (n * 10 + d)
    | _, _ => none) (some 0)

/-- Python `int(str)` on the shapes that occur here (an optional minus sign
followed by digits); every other input raises in Python and is `none` here. -/
def intOfString (s : String) : Option Int :=
  match s.data with
  | '-' :: rest => (parseNat rest).map (fun n => -(n : Int))
  | cs => (parseNat cs).map (fun n => (n : Int))

/-- The tags of `s` in a given namespace, as in the set comprehensions
over the identifier set of `match_products`. -/
def prefTags (ns : String) (s : Finset String) : Finset String :=
  s.filter (fun x => strStartsWith x ns)

/-- Series conflict: both sides have `series_` tags and the tag sets differ. -/
def seriesConflict (a b : Finset String) : Bool :=
  decide (prefTags ("series_") a ≠ ∅ ∧ prefTags ("series_") b ≠ ∅ ∧
    prefTags ("series_") a ≠ prefTags ("series_") b)

/-- The `res_types` set of `match_products`. -/
def resTypes : Finset String := {"4k", "fhd", "hd"}

/-- Resolution conflict: both sides have resolution tags and they share none. -/
def resolutionConflict (a b : Finset String) : Bool :=
  decide (a ∩ resTypes ≠ ∅ ∧ b ∩ resTypes ≠ ∅ ∧
    (a ∩ resTypes) ∩ (b ∩ resTypes) = ∅)

/-- The set of tags of one side that end with `inch`, as built by the set
comprehension in the size-conflict check. -/
def inchSet (s : Finset String) : Finset String :=
  s.filter (fun x => strEndsWith x ("inch"))

/-- One element of a tag set.  The code reads `list(amz_sizes)[0]` from a
Python set, whose iteration order is unspecified; the embedding fixes the
arbitrary choice as the least element. -/
def minTag (s : Finset String) : Option String := s.min

/-- Python `int` of the tag with `inch` removed.  Python `int` raises on a
non-numeric remainder; that path is modelled as `none`. -/
def inchValue (s : String) : Option Int := intOfString ⟨stripInch s.data⟩

/-- Size conflict: both sides have an `inch` tag and the two parsed values
differ by more than 1. -/
def sizeConflict (a b : Finset String) : Bool :=
  match minTag (inchSet a), minTag (inchSet b) with
  | some x, some y =>
    match inchValue x, inchValue y with
    | some m, some n => decide ((m - n).natAbs > 1)
    | _, _ => false
  | _, _ => false

/-- The `variants` set used by the variant-conflict check (note: it does not
contain `promax`, unlike the variant vocabulary of the extractor). -/
def variantSet : Finset String :=
  {"pro", "max", "plus", "ultra", "mini", "air", "lite", "fe", "v2", "gen",
   "generation"}

/-- Variant conflict: the two variant-tag sets are not exactly equal
(no non-emptiness requirement, unlike the other categorical rules). -/
def variantConflict (a b : Finset String) : Bool :=
  decide (a ∩ variantSet ≠ b ∩ variantSet)

/-- Price conflict: both prices truthy and `abs(p1-p2)/min(p1,p2) > 0.8`. -/
def priceConflict (p1 p2 : Option ℚ) : Bool :=
  match p1, p2 with
  | some a, some b => decide (a ≠ 0 ∧ b ≠ 0 ∧ |a - b| / min a b > (0.8 : ℚ))
  | _, _ => false

/-- Color conflict as the code computes it: both sides have `color_` tags and
the two `color_` tag sets are NOT exactly equal (`amz_colors != fk_colors`). -/
def colorConflict (a b : Finset String) : Bool :=
  decide (prefTags ("color_") a ≠ ∅ ∧ prefTags ("color_") b ≠ ∅ ∧
    prefTags ("color_") a ≠ prefTags ("color_") b)

/-- Unit/quantity conflict: both sides have `unit_` tags and the sets differ. -/
def unitConflict (a b : Finset String) : Bool :=
  decide (prefTags ("unit_") a ≠ ∅ ∧ prefTags ("unit_") b ≠ ∅ ∧
    prefTags ("unit_") a ≠ prefTags ("unit_") b)

/-- Storage conflict: both sides have `storage_` tags and they share none
(`ram_` tags do not carry the `storage_` namespace, so they are ignored). -/
def storageConflict (a b : Finset String) : Bool :=
  decide (prefTags ("storage_") a ≠ ∅ ∧ prefTags ("storage_") b ≠ ∅ ∧
    prefTags ("storage_") a ∩ prefTags ("storage_") b = ∅)

/-- Wattage conflict: both sides have `watt_` tags and the sets differ. -/
def wattConflict (a b : Finset String) : Bool :=
  decide (prefTags ("watt_") a ≠ ∅ ∧ prefTags ("watt_") b ≠ ∅ ∧
    prefTags ("watt_") a ≠ prefTags ("watt_") b)

/-- Appliance-model conflict: both sides have `appmodel_` tags, sharing none. -/
def appmodelConflict (a b : Finset String) : Bool :=
  decide (prefTags ("appmodel_") a ≠ ∅ ∧ prefTags ("appmodel_") b ≠ ∅ ∧
    prefTags ("appmodel_") a ∩ prefTags ("appmodel_") b = ∅)

/-- Jar-count conflict: both sides have `jars_` tags and the sets differ. -/
def jarsConflict (a b : Finset String) : Bool :=
  decide (prefTags ("jars_") a ≠ ∅ ∧ prefTags ("jars_") b ≠ ∅ ∧
    prefTags ("jars_") a ≠ prefTags ("jars_") b)

/-- Exact model-number match: both sides have `model_` tags and they share
at least one (`bool(amz_models and fk_models and amz_models.intersection(...))`). -/
def modelMatch (a b : Finset String) : Bool :=
  decide (prefTags ("model_") a ≠ ∅ ∧ prefTags ("model_") b ≠ ∅ ∧
    prefTags ("model_") a ∩ prefTags ("model_") b ≠ ∅)

/-- The disjunction of the eleven hard-rejection conflicts, in the order of
the `continue` test of `match_products`. -/
def anyConflict (ap : Product) (a : Finset String) (fp : Product)
    (b : Finset String) : Bool :=
  seriesConflict a b || resolutionConflict a b || sizeConflict a b ||
  storageConflict a b || colorConflict a b || unitConflict a b ||
  variantConflict a b || priceConflict ap.price fp.price ||
  wattConflict a b || appmodelConflict a b || jarsConflict a b

/-- The fixed `brand_ids` set of the key-match check (a strict subset of the
brand vocabulary of the extractor). -/
def brandIds : Finset String :=
  {"apple", "iphone", "samsung", "oneplus", "xiaomi", "redmi", "realme",
   "oppo", "vivo", "poco", "motorola", "google", "pixel", "nothing", "mi",
   "lg", "sony", "boat", "jbl"}

/-- `key_match_count`: shared `brand_ids` tag, plus equal non-empty
`storage_` tag sets, plus equal non-empty `color_` tag sets. -/
def keyMatchCount (a b : Finset String) : Nat :=
  (if (a ∩ brandIds) ∩ (b ∩ brandIds) ≠ ∅ then 1 else 0) +
  (if prefTags ("storage_") a ≠ ∅ ∧ prefTags ("storage_") b ≠ ∅ ∧
      prefTags ("storage_") a = prefTags ("storage_") b then 1 else 0) +
  (if prefTags ("color_") a ≠ ∅ ∧ prefTags ("color_") b ≠ ∅ ∧
      prefTags ("color_") a = prefTags ("color_") b then 1 else 0)

/-- Composite score: semantic baseline, `0.1` per shared identifier, `0.5`
bonus for an exact model-number match. -/
def pairScore (sem : ℚ) (a b : Finset String) : ℚ :=
  sem + ((a ∩ b).card : ℚ) * (0.1 : ℚ) +
    (if modelMatch a b then (0.5 : ℚ) else 0)

/-- The tiered confidence gate: the four `elif` acceptance branches of
`match_products` have identical bodies, so they are grouped as one
disjunction. -/
abbrev codeGate (a b : Finset String) (sem : ℚ) : Prop :=
  (keyMatchCount a b ≥ 3 ∧ sem > (0.5 : ℚ)) ∨
  (keyMatchCount a b ≥ 2 ∧ sem > (0.6 : ℚ)) ∨
  modelMatch a b = true ∨ sem > (0.78 : ℚ)

/-- One iteration of the inner candidate loop of `match_products`: skip a
consumed Flipkart index, skip on any hard conflict, otherwise accept the
candidate as the running best when its score strictly exceeds the current
best and the confidence gate holds. -/
def considerOne (simRow : Nat → ℚ) (amz : AmzItem) (used : List Nat)
    (st : BestSt) (fk : FkItem) : BestSt :=
  if fk.idx ∈ used then st
  else if anyConflict amz.p amz.identifiers fk.p fk.identifiers then st
  else if pairScore (simRow fk.idx) amz.identifiers fk.identifiers >
            st.bestScore ∧
          codeGate amz.identifiers fk.identifiers (simRow fk.idx) then
    ⟨some (fk.p, fk.idx),
     pairScore (simRow fk.idx) amz.identifiers fk.identifiers⟩
  else st

/-- The full inner loop over `fk_data` for one anchor, starting from
`best_match = None`, `best_score = 0`. -/
def innerLoop (simRow : Nat → ℚ) (amz : AmzItem) (used : List Nat)
    (fks : List FkItem) : BestSt :=
  fks.foldl (considerOne simRow amz used) ⟨none, 0⟩

/-- The record built for an anchor Amazon listing (id `n`), drawing title,
image, rating, prime flag and the Amazon price/link from the anchor and the
Flipkart price/link from the accepted candidate, if any. -/
def mkAnchorRecord (n : Nat) (p : Product) (best : Option (Product × Nat)) :
    UnifiedProduct :=
  { id := n, title := p.title, image := p.image, rating := p.rating,
    is_prime := p.is_prime, amazon_price := p.price, amazon_link := p.link,
    flipkart_price := match best with | some x => x.1.price | none => none,
    flipkart_link := match best with | some x => x.1.link | none => none,
    has_comparison := false }

/-- `used_flipkart.add(best_idx)` when a match was accepted (the Python set
is membership-only, modelled as a list). -/
def nextUsed (best : Option (Product × Nat)) (used : List Nat) : List Nat :=
  match best with
  | some x => x.2 :: used
  | none => used

/-- The outer anchor loop over `amz_data` (anchor index `i` is also the row
index into the similarity matrix and determines `id = len(unified) + 1`);
threads the `used_flipkart` set. -/
def amzLoop (sim : Nat → Nat → ℚ) (fks : List FkItem) :
    Nat → List AmzItem → List Nat → List UnifiedProduct × List Nat
  | _, [], used => ([], used)
  | i, a :: rest, used =>
    let st := innerLoop (sim i) a used fks
    let r := amzLoop sim fks (i + 1) rest (nextUsed st.best used)
    (mkAnchorRecord (i + 1) a.p st.best :: r.1, r.2)

/-- The record built for a never-consumed Flipkart listing: Amazon fields
absent, `is_prime` hard-coded to `False`. -/
def mkLeftoverRecord (n : Nat) (p : Product) : UnifiedProduct :=
  { id := n, title := p.title, image := p.image, rating := p.rating,
    is_prime := false, amazon_price := none, amazon_link := none,
    flipkart_price := p.price, flipkart_link := p.link,
    has_comparison := false }

/-- The "unmatched Flipkart" loop: one record per enumerated Flipkart
listing whose index is not in `used_flipkart`; `n` is the running length of
`unified_products`. -/
def fkLeftover (used : List Nat) : Nat → Nat → List Product → List UnifiedProduct
  | _, _, [] => []
  | n, idx, p :: ps =>
    if idx ∈ used then fkLeftover used n (idx + 1) ps
    else mkLeftoverRecord (n + 1) p :: fkLeftover used (n + 1) (idx + 1) ps

/-- The partition predicate of the final ordering: Python truthiness of the
Amazon price and of the Flipkart price. -/
def bothPrices (r : UnifiedProduct) : Bool :=
  qTruthy r.amazon_price && qTruthy r.flipkart_price

/-- Negation of `bothPrices`, the second filter of the final ordering. -/
def notBoth (r : UnifiedProduct) : Bool := ! bothPrices r

/-- The final re-id loop: `id = i + 1` in output order, and
`has_comparison = bool(amazon_price and flipkart_price)`. -/
def assignIds : Nat → List UnifiedProduct → List UnifiedProduct
  | _, [] => []
  | n, r :: rs =>
    { r with id := n + 1, has_comparison := bothPrices r } :: assignIds (n + 1) rs

/-- `amz_data` construction: identifiers extracted per title. -/
def amzItems (ext : String → Finset String) (l : List Product) : List AmzItem :=
  l.map (fun p => ⟨p, ext p.title⟩)

/-- `fk_data` construction: `enumerate(flipkart_products)` with identifiers
extracted per title. -/
def fkItems (ext : String → Finset String) : Nat → List Product → List FkItem
  | _, [] => []
  | i, p :: ps => ⟨i, p, ext p.title⟩ :: fkItems ext (i + 1) ps

/-- The anchor phase of a matching run: the per-anchor records and the final
consumed-index set. -/
def runA (ext : String → Finset String) (sim : Nat → Nat → ℚ)
    (A B : List Product) : List UnifiedProduct × List Nat :=
  amzLoop sim (fkItems ext 0 B) 0 (amzItems ext A) []

/-- `unified_products` right before the final ordering: anchor records
followed by the never-consumed Flipkart records. -/
def unifiedList (ext : String → Finset String) (sim : Nat → Nat → ℚ)
    (A B : List Product) : List UnifiedProduct :=
  (runA ext sim A B).1 ++
    fkLeftover (runA ext sim A B).2 (runA ext sim A B).1.length 0 B

/-- `match_products(amazon_products, flipkart_products)` with the similarity
matrix and the identifier extractor as parameters: empty input on either
side short-circuits to `[]`; otherwise the unified list is stably
partitioned by price truthiness and re-indexed. -/
def matchProducts (ext : String → Finset String) (sim : Nat → Nat → ℚ)
    (A B : List Product) : List UnifiedProduct :=
  if A.isEmpty || B.isEmpty then []
  else
    assignIds 0 ((unifiedList ext sim A B).filter bothPrices ++
      (unifiedList ext sim A B).filter notBoth)

/-! ### Spec-side definitions (for refinement comparison) -/

/-- Modelled from the wording of the spec: the full brand vocabulary of the
identifier extractor (`extract_key_identifiers`); the shared-brand-tag
signal of the spec ranges over this vocabulary. -/
def brandVocabulary : Finset String :=
  {"apple", "iphone", "samsung", "oneplus", "xiaomi", "redmi", "realme",
   "oppo", "vivo", "poco", "motorola", "google", "pixel", "nothing",
   "mi", "lg", "sony", "toshiba", "tcl", "panasonic", "philips", "haier",
   "hisense", "vu", "acer", "acerpure", "kenstar", "onida", "iffalcon",
   "hp", "dell", "lenovo", "asus", "msi", "macbook", "thinkpad",
   "boat", "jbl", "bose", "sennheiser", "noise", "zebronics", "skullcandy",
   "prestige", "bajaj", "butterfly", "preethi", "pigeon",
   "havells", "morphy richards", "usha", "crompton", "kent", "maharaja",
   "sujata", "bosch", "wonderchef", "kenwood", "inalsa", "hamilton"}

/-- The `keyMatchCount` of the spec: a shared brand tag (any brand of the
extractor vocabulary), equal non-empty `storage_` tag sets, equal
non-empty `color_` tag sets. -/
def specKeyMatchCount (a b : Finset String) : Nat :=
  (if a ∩ b ∩ brandVocabulary ≠ ∅ then 1 else 0) +
  (if prefTags ("storage_") a ≠ ∅ ∧ prefTags ("storage_") b ≠ ∅ ∧
      prefTags ("storage_") a = prefTags ("storage_") b then 1 else 0) +
  (if prefTags ("color_") a ≠ ∅ ∧ prefTags ("color_") b ≠ ∅ ∧
      prefTags ("color_") a = prefTags ("color_") b then 1 else 0)

/-- The confidence gate as the spec words it, with `specKeyMatchCount`. -/
abbrev specGate (a b : Finset String) (sem : ℚ) : Prop :=
  (specKeyMatchCount a b ≥ 3 ∧ sem > (0.5 : ℚ)) ∨
  (specKeyMatchCount a b ≥ 2 ∧ sem > (0.6 : ℚ)) ∨
  modelMatch a b = true ∨ sem > (0.78 : ℚ)

/-- Presence (not truthiness) of both prices, the partition key as the
spec words it. -/
def presentBoth (r : UnifiedProduct) : Bool :=
  r.amazon_price.isSome && r.flipkart_price.isSome

/-- Negation of `presentBoth`. -/
def lacksOne (r : UnifiedProduct) : Bool := ! presentBoth r

/-- Input well-formedness from the data model: a present price is non-zero
(the spec declares prices positive-or-absent). -/
abbrev wfPrices (l : List Product) : Prop := ∀ p ∈ l, p.price ≠ some 0

/-- Enumerated Flipkart entries whose index was never consumed. -/
def notUsed (used : List Nat) (pi : Nat × Product) : Bool :=
  decide (pi.1 ∉ used)

/-- Core of the leftover record of one enumerated Flipkart entry. -/
def leftCore (pi : Nat × Product) : RecordCore := core (mkLeftoverRecord 0 pi.2)

/-! ### Helper lemmas -/

theorem considerOne_spec (simRow : Nat → ℚ) (amz : AmzItem) (used : List Nat)
    (st : BestSt) (fk : FkItem) :
    considerOne simRow amz used st fk = st ∨
    (fk.idx ∉ used ∧
     anyConflict amz.p amz.identifiers fk.p fk.identifiers = false ∧
     pairScore (simRow fk.idx) amz.identifiers fk.identifiers > st.bestScore ∧
     codeGate amz.identifiers fk.identifiers (simRow fk.idx) ∧
     considerOne simRow amz used st fk =
       ⟨some (fk.p, fk.idx),
        pairScore (simRow fk.idx) amz.identifiers fk.identifiers⟩) := by
  unfold considerOne
  split
  · exact Or.inl rfl
  · next hmem =>
    split
    · exact Or.inl rfl
    · next hconf =>
      split
      · next hacc =>
        exact Or.inr ⟨hmem, by simpa using hconf, hacc.1, hacc.2, rfl⟩
      · exact Or.inl rfl

theorem conflict_skip (simRow : Nat → ℚ) (amz : AmzItem) (used : List Nat)
    (st : BestSt) (fk : FkItem)
    (h : anyConflict amz.p amz.identifiers fk.p fk.identifiers = true) :
    considerOne simRow amz used st fk = st := by
  rcases considerOne_spec simRow amz used st fk with h1 | h2
  · exact h1
  · rw [h2.2.1] at h
    cases h

theorem modelMatch_iff (a b : Finset String) :
    modelMatch a b = true ↔
      prefTags ("model_") a ∩ prefTags ("model_") b ≠ ∅ := by
  unfold modelMatch
  rw [decide_eq_true_iff]
  constructor
  · exact fun h => h.2.2
  · intro h
    obtain ⟨x, hx⟩ := Finset.nonempty_iff_ne_empty.mpr h
    rw [Finset.mem_inter] at hx
    exact ⟨Finset.nonempty_iff_ne_empty.mp ⟨x, hx.1⟩,
           Finset.nonempty_iff_ne_empty.mp ⟨x, hx.2⟩, h⟩

set_option maxRecDepth 8000 in
theorem brandIds_subset : brandIds ⊆ brandVocabulary := by decide

theorem keyMatchCount_le_spec (a b : Finset String) :
    keyMatchCount a b ≤ specKeyMatchCount a b := by
  unfold keyMatchCount specKeyMatchCount
  have h1 : (if (a ∩ brandIds) ∩ (b ∩ brandIds) ≠ ∅ then 1 else 0) ≤
      (if a ∩ b ∩ brandVocabulary ≠ ∅ then 1 else 0) := by
    split
    · next h =>
      obtain ⟨x, hx⟩ := Finset.nonempty_iff_ne_empty.mpr h
      simp only [Finset.mem_inter] at hx
      have hxv : x ∈ a ∩ b ∩ brandVocabulary := by
        simp only [Finset.mem_inter]
        exact ⟨⟨hx.1.1, hx.2.1⟩, brandIds_subset hx.1.2⟩
      rw [if_pos (Finset.nonempty_iff_ne_empty.mp ⟨x, hxv⟩)]
    · exact Nat.zero_le _
  omega

/-! ### Concrete inputs used by witnesses -/

def pa : Product :=
  ⟨"Samsung Galaxy S21 128GB Black", some 699, none, some ("a-link"), none, true⟩

def pb : Product :=
  ⟨"Samsung Galaxy S21 128GB Phantom Black", some 679, none, some ("f-link"), none, false⟩

def pc : Product := ⟨"Sony WH-1000XM4 Headphones", none, none, none, none, false⟩

def pd : Product := ⟨"Sony WH1000XM4 Wireless", none, none, none, none, false⟩

def extEmpty : String → Finset String := fun _ => ∅

def simZero : Nat → Nat → ℚ := fun _ _ => 0

def oneRow : Nat → ℚ := fun _ => 1

def mTags : Finset String := {"model_smg991b"}

/-! ### Claim theorems -/

/-- C2: a candidate becomes the running best only if its composite score
strictly exceeds the current best and one of the four confidence gates
holds, with `keyMatchCount` read as the spec words it (shared brand tag,
equal non-empty `storage_` sets, equal non-empty `color_` sets).  The code
counts the brand signal over the fixed `brand_ids` subset of the brand
vocabulary, which only makes its gate stricter, so the necessary
condition follows. -/
theorem accept_only_if_gate (simRow : Nat → ℚ) (amz : AmzItem)
    (used : List Nat) (st : BestSt) (fk : FkItem)
    (h : considerOne simRow amz used st fk ≠ st) :
    pairScore (simRow fk.idx) amz.identifiers fk.identifiers > st.bestScore ∧
    specGate amz.identifiers fk.identifiers (simRow fk.idx) := by
  rcases considerOne_spec simRow amz used st fk with h1 | ⟨_, _, hsc, hg, _⟩
  · exact absurd h1 h
  · refine ⟨hsc, ?_⟩
    have hle := keyMatchCount_le_spec amz.identifiers fk.identifiers
    rcases hg with ⟨hk, hs⟩ | ⟨hk, hs⟩ | hm | hs
    · exact Or.inl ⟨le_trans hk hle, hs⟩
    · exact Or.inr (Or.inl ⟨le_trans hk hle, hs⟩)
    · exact Or.inr (Or.inr (Or.inl hm))
    · exact Or.inr (Or.inr (Or.inr hs))

theorem accept_only_if_gate_witness :
    pairScore (oneRow 0) mTags mTags > (0 : ℚ) ∧
    specGate mTags mTags (oneRow 0) :=
  accept_only_if_gate oneRow ⟨pc, mTags⟩ [] ⟨none, 0⟩ ⟨0, pd, mTags⟩ (by
    have hconf : anyConflict pc mTags pd mTags = false := by decide
    have hpos : pairScore (oneRow 0) mTags mTags > (0 : ℚ) := by
      unfold pairScore
      rw [if_pos (show modelMatch mTags mTags = true by decide)]
      have hcard : ((mTags ∩ mTags).card : ℚ) = 1 := by
        rw [show (mTags ∩ mTags).card = 1 from by decide]
        norm_num
      rw [hcard, show oneRow 0 = 1 from rfl]
      norm_num
    have hgate : codeGate mTags mTags (oneRow 0) :=
      Or.inr (Or.inr (Or.inl (by decide)))
    unfold considerOne
    rw [if_neg (show ¬((⟨0, pd, mTags⟩ : FkItem).idx ∈ ([] : List Nat)) by
          simp),
        if_neg (show ¬(anyConflict pc mTags pd mTags = true) by
          rw [hconf]; simp),
        if_pos (show _ ∧ _ from ⟨hpos, hgate⟩)]
    simp)

/-- C3: for every candidate pair the composite score is the semantic
similarity, plus `0.1` per element of the intersection of the two
identifier sets, plus `0.5` exactly when the two sides share a `model_`
tag; in particular this holds for every conflict-free pair. -/
theorem pairScore_formula (sem : ℚ) (a b : Finset String) :
    pairScore sem a b = sem + ((a ∩ b).card : ℚ) * (0.1 : ℚ) +
      (if prefTags ("model_") a ∩ prefTags ("model_") b ≠ ∅
       then (0.5 : ℚ) else 0) := by
  unfold pairScore
  rw [if_congr (modelMatch_iff a b) rfl rfl]

/-- C4: a pair whose identifier sets both contain `storage_` tags sharing
none is hard-rejected: the inner loop leaves its state unchanged whatever
the semantic similarity, the current best, or the remaining tags (in
particular `ram_` tags play no role here). -/
theorem storage_conflict_skip (simRow : Nat → ℚ) (amz : AmzItem)
    (used : List Nat) (st : BestSt) (fk : FkItem)
    (h1 : prefTags ("storage_") amz.identifiers ≠ ∅)
    (h2 : prefTags ("storage_") fk.identifiers ≠ ∅)
    (h3 : prefTags ("storage_") amz.identifiers ∩
      prefTags ("storage_") fk.identifiers = ∅) :
    considerOne simRow amz used st fk = st := by
  apply conflict_skip
  have hs : storageConflict amz.identifiers fk.identifiers = true := by
    unfold storageConflict
    exact decide_eq_true ⟨h1, h2, h3⟩
  unfold anyConflict
  rw [hs]
  simp

theorem storage_conflict_skip_witness :
    considerOne oneRow ⟨pa, {"storage_128gb"}⟩ [] ⟨none, 0⟩
      ⟨0, pb, {"storage_256gb"}⟩ = ⟨none, 0⟩ :=
  storage_conflict_skip oneRow ⟨pa, {"storage_128gb"}⟩ [] ⟨none, 0⟩
    ⟨0, pb, {"storage_256gb"}⟩ (by decide) (by decide) (by decide)

/-- C5 counterexample: the two color-tag sets share `color_black`, so under
the claimed disjointness rule there would be no conflict, yet the rule of
the code (exact-set inequality) does reject the pair. -/
theorem color_conflict_shares_element :
    colorConflict {"color_black", "color_blue"} {"color_black"} = true ∧
    prefTags ("color_") ({"color_black", "color_blue"} : Finset String) ∩
      prefTags ("color_") ({"color_black"} : Finset String) ≠ ∅ := by
  decide

/-- C5 amended: the color rule hard-rejects a pair iff both sides have at
least one `color_` tag and the two `color_` tag sets are not exactly equal
(exact-set inequality, like the variant rule but with a non-emptiness
requirement), and a color conflict makes the inner loop skip the pair. -/
theorem color_conflict_iff (simRow : Nat → ℚ) (amz : AmzItem)
    (used : List Nat) (st : BestSt) (fk : FkItem) :
    (colorConflict amz.identifiers fk.identifiers = true ↔
      (prefTags ("color_") amz.identifiers ≠ ∅ ∧
       prefTags ("color_") fk.identifiers ≠ ∅ ∧
       prefTags ("color_") amz.identifiers ≠
         prefTags ("color_") fk.identifiers)) ∧
    (colorConflict amz.identifiers fk.identifiers = true →
      considerOne simRow amz used st fk = st) := by
  constructor
  · unfold colorConflict
    exact decide_eq_true_iff
  · intro hc
    apply conflict_skip
    unfold anyConflict
    rw [hc]
    simp

theorem color_conflict_iff_witness :
    considerOne oneRow ⟨pa, {"color_black", "color_blue"}⟩ [] ⟨none, 0⟩
      ⟨0, pb, {"color_black"}⟩ = ⟨none, 0⟩ :=
  (color_conflict_iff oneRow ⟨pa, {"color_black", "color_blue"}⟩ []
    ⟨none, 0⟩ ⟨0, pb, {"color_black"}⟩).2 (by decide)

/-- C6: when each identifier set carries one `inch` tag with a parseable
numeric value, the pair is size-conflicted iff the two values differ by
more than 1. -/
theorem size_conflict_iff (a b : Finset String) (x y : String) (m n : Int)
    (hx : minTag (inchSet a) = some x) (hy : minTag (inchSet b) = some y)
    (hm : inchValue x = some m) (hn : inchValue y = some n) :
    (sizeConflict a b = true ↔ (m - n).natAbs > 1) := by
  unfold sizeConflict
  rw [hx, hy]
  simp only
  rw [hm, hn]
  simp

theorem size_conflict_iff_witness :
    sizeConflict ({"32inch"} : Finset String) {"33inch"} = false ∧
    sizeConflict ({"32inch"} : Finset String) {"43inch"} = true := by
  constructor
  · have h := size_conflict_iff {"32inch"} {"33inch"} ("32inch") ("33inch")
      32 33 (by decide) (by decide) (by decide) (by decide)
    cases hb : sizeConflict ({"32inch"} : Finset String) {"33inch"}
    · rfl
    · exact absurd (h.mp hb) (by decide)
  · exact (size_conflict_iff {"32inch"} {"43inch"} ("32inch") ("43inch")
      32 43 (by decide) (by decide) (by decide) (by decide)).mpr (by decide)

/-- C8: the engine holds no state across calls; with equal listing
sequences and extensionally equal similarity matrices (the provider
output), the results are identical, ids and fields included. -/
theorem matchProducts_deterministic (ext : String → Finset String)
    (sim1 sim2 : Nat → Nat → ℚ) (A1 A2 B1 B2 : List Product)
    (hA : A1 = A2) (hB : B1 = B2) (hsim : ∀ i j, sim1 i j = sim2 i j) :
    matchProducts ext sim1 A1 B1 = matchProducts ext sim2 A2 B2 := by
  subst hA
  subst hB
  have h : sim1 = sim2 := funext fun i => funext fun j => hsim i j
  rw [h]

theorem matchProducts_deterministic_witness :
    matchProducts extEmpty simZero [pa] [pb] =
      matchProducts extEmpty simZero [pa] [pb] :=
  matchProducts_deterministic extEmpty simZero simZero [pa] [pa] [pb] [pb]
    rfl rfl (fun _ _ => rfl)

/-- C9: an empty input on either side yields the empty result. -/
theorem matchProducts_empty_input (ext : String → Finset String)
    (sim : Nat → Nat → ℚ) (A B : List Product) :
    matchProducts ext sim A [] = [] ∧ matchProducts ext sim [] B = [] := by
  constructor
  · unfold matchProducts
    simp
  · unfold matchProducts
    simp

/-! ### Structural lemmas about the assignment loop -/

theorem amzLoop_cons (sim : Nat → Nat → ℚ) (fks : List FkItem) (i : Nat)
    (a : AmzItem) (rest : List AmzItem) (used : List Nat) :
    amzLoop sim fks i (a :: rest) used =
      (mkAnchorRecord (i + 1) a.p (innerLoop (sim i) a used fks).best ::
        (amzLoop sim fks (i + 1) rest
          (nextUsed (innerLoop (sim i) a used fks).best used)).1,
       (amzLoop sim fks (i + 1) rest
         (nextUsed (innerLoop (sim i) a used fks).best used)).2) := rfl

theorem amzLoop_length (sim : Nat → Nat → ℚ) (fks : List FkItem) :
    ∀ (rest : List AmzItem) (i : Nat) (used : List Nat),
    (amzLoop sim fks i rest used).1.length = rest.length := by
  intro rest
  induction rest with
  | nil => intro i used; rfl
  | cons a rest ih =>
    intro i used
    rw [amzLoop_cons]
    simp [ih]

theorem innerLoop_foldl_best (simRow : Nat → ℚ) (amz : AmzItem)
    (used : List Nat) :
    ∀ (fks : List FkItem) (st : BestSt),
    (fks.foldl (considerOne simRow amz used) st).best = st.best ∨
    ∃ fk ∈ fks, fk.idx ∉ used ∧
      (fks.foldl (considerOne simRow amz used) st).best =
        some (fk.p, fk.idx) := by
  intro fks
  induction fks with
  | nil => intro st; exact Or.inl rfl
  | cons f fs ih =>
    intro st
    rw [List.foldl_cons]
    rcases ih (considerOne simRow amz used st f) with h | ⟨fk, hm, hnu2, hbest⟩
    · rcases considerOne_spec simRow amz used st f with he | ⟨hnu, _, _, _, heq⟩
      · rw [he] at h ⊢
        exact Or.inl h
      · rw [heq] at h ⊢
        exact Or.inr ⟨f, List.mem_cons_self f fs, hnu, h⟩
    · exact Or.inr ⟨fk, List.mem_cons_of_mem f hm, hnu2, hbest⟩

theorem innerLoop_best (simRow : Nat → ℚ) (amz : AmzItem) (used : List Nat)
    (fks : List FkItem) :
    (innerLoop simRow amz used fks).best = none ∨
    ∃ fk ∈ fks, fk.idx ∉ used ∧
      (innerLoop simRow amz used fks).best = some (fk.p, fk.idx) :=
  innerLoop_foldl_best simRow amz used fks ⟨none, 0⟩

theorem amzLoop_used (sim : Nat → Nat → ℚ) (fks : List FkItem) :
    ∀ (rest : List AmzItem) (i : Nat) (used : List Nat), used.Nodup →
    (amzLoop sim fks i rest used).2.Nodup ∧
    (∀ j ∈ (amzLoop sim fks i rest used).2,
      j ∈ used ∨ ∃ fk ∈ fks, j = fk.idx) := by
  intro rest
  induction rest with
  | nil => intro i used h; exact ⟨h, fun j hj => Or.inl hj⟩
  | cons a rest ih =>
    intro i used h
    rw [amzLoop_cons]
    cases hst : (innerLoop (sim i) a used fks).best with
    | none =>
      simp only [nextUsed]
      exact ih (i + 1) used h
    | some x =>
      simp only [nextUsed]
      rcases innerLoop_best (sim i) a used fks with hn | ⟨fk, hmem, hnu, hbest⟩
      · rw [hst] at hn
        cases hn
      · rw [hst] at hbest
        injection hbest with hx
        have hx2 : x.2 = fk.idx := by rw [hx]
        have hnodup : (x.2 :: used).Nodup :=
          List.nodup_cons.mpr ⟨by rw [hx2]; exact hnu, h⟩
        obtain ⟨ih1, ih2⟩ := ih (i + 1) (x.2 :: used) hnodup
        refine ⟨ih1, fun j hj => ?_⟩
        rcases ih2 j hj with hj2 | hj2
        · rcases List.mem_cons.mp hj2 with rfl | hj3
          · exact Or.inr ⟨fk, hmem, hx2⟩
          · exact Or.inl hj3
        · exact Or.inr hj2

theorem amzLoop_get (sim : Nat → Nat → ℚ) (fks : List FkItem) :
    ∀ (rest : List AmzItem) (i : Nat) (used : List Nat) (k : Nat)
      (r : UnifiedProduct),
    (amzLoop sim fks i rest used).1[k]? = some r →
    ∃ a : AmzItem, rest[k]? = some a ∧ ∃ best : Option (Product × Nat),
      (best = none ∨ ∃ fk ∈ fks, best = some (fk.p, fk.idx)) ∧
      r = mkAnchorRecord (i + k + 1) a.p best := by
  intro rest
  induction rest with
  | nil =>
    intro i used k r h
    rw [show (amzLoop sim fks i [] used).1 = [] from rfl] at h
    simp at h
  | cons a rest ih =>
    intro i used k r h
    rw [amzLoop_cons] at h
    cases k with
    | zero =>
      rw [List.getElem?_cons_zero] at h
      injection h with h
      refine ⟨a, List.getElem?_cons_zero, (innerLoop (sim i) a used fks).best,
        ?_, ?_⟩
      · rcases innerLoop_best (sim i) a used fks with hn | ⟨fk, hm, _, hb⟩
        · exact Or.inl hn
        · exact Or.inr ⟨fk, hm, hb⟩
      · rw [← h]
    | succ k =>
      rw [List.getElem?_cons_succ] at h
      obtain ⟨a', ha', best, hbp, hr⟩ :=
        ih (i + 1) (nextUsed (innerLoop (sim i) a used fks).best used) k r h
      refine ⟨a', by rw [List.getElem?_cons_succ]; exact ha', best, hbp, ?_⟩
      rw [show i + (k + 1) + 1 = i + 1 + k + 1 from by omega]
      exact hr

theorem fkItems_mem (ext : String → Finset String) :
    ∀ (ps : List Product) (i : Nat) (fk : FkItem), fk ∈ fkItems ext i ps →
    fk.p ∈ ps ∧ i ≤ fk.idx ∧ fk.idx < i + ps.length := by
  intro ps
  induction ps with
  | nil => intro i fk h; cases h
  | cons p ps ih =>
    intro i fk h
    rw [show fkItems ext i (p :: ps) =
      ⟨i, p, ext p.title⟩ :: fkItems ext (i + 1) ps from rfl] at h
    rcases List.mem_cons.mp h with rfl | h2
    · exact ⟨List.mem_cons_self p ps, le_refl i, by simp⟩
    · obtain ⟨h1, h2le, h2lt⟩ := ih (i + 1) fk h2
      refine ⟨List.mem_cons_of_mem p h1, by omega, ?_⟩
      simp only [List.length_cons]
      omega

theorem fkLeftover_mem :
    ∀ (ps : List Product) (used : List Nat) (n idx : Nat)
      (r : UnifiedProduct),
    r ∈ fkLeftover used n idx ps → ∃ p ∈ ps, ∃ k, r = mkLeftoverRecord k p := by
  intro ps
  induction ps with
  | nil => intro used n idx r h; cases h
  | cons p ps ih =>
    intro used n idx r h
    rw [show fkLeftover used n idx (p :: ps) =
      if idx ∈ used then fkLeftover used n (idx + 1) ps
      else mkLeftoverRecord (n + 1) p ::
        fkLeftover used (n + 1) (idx + 1) ps from rfl] at h
    split at h
    · obtain ⟨p', hp', k, hr⟩ := ih used n (idx + 1) r h
      exact ⟨p', List.mem_cons_of_mem p hp', k, hr⟩
    · rcases List.mem_cons.mp h with rfl | h2
      · exact ⟨p, List.mem_cons_self p ps, n + 1, rfl⟩
      · obtain ⟨p', hp', k, hr⟩ := ih used (n + 1) (idx + 1) r h2
        exact ⟨p', List.mem_cons_of_mem p hp', k, hr⟩

theorem fkLeftover_core :
    ∀ (ps : List Product) (used : List Nat) (n idx : Nat),
    (fkLeftover used n idx ps).map core =
      ((List.enumFrom idx ps).filter (notUsed used)).map leftCore := by
  intro ps
  induction ps with
  | nil => intro used n idx; rfl
  | cons p ps ih =>
    intro used n idx
    rw [show List.enumFrom idx (p :: ps) =
      (idx, p) :: List.enumFrom (idx + 1) ps from rfl]
    rw [show fkLeftover used n idx (p :: ps) =
      if idx ∈ used then fkLeftover used n (idx + 1) ps
      else mkLeftoverRecord (n + 1) p ::
        fkLeftover used (n + 1) (idx + 1) ps from rfl]
    rw [List.filter_cons]
    by_cases hu : idx ∈ used
    · rw [if_pos hu, show notUsed used (idx, p) = false from by
        simp [notUsed, hu]]
      simp only [Bool.false_eq_true, if_false]
      exact ih used n (idx + 1)
    · rw [if_neg hu, show notUsed used (idx, p) = true from by
        simp [notUsed, hu]]
      simp only [if_true]
      rw [List.map_cons, List.map_cons, ih used (n + 1) (idx + 1)]
      rfl

theorem assignIds_map_core :
    ∀ (l : List UnifiedProduct) (n : Nat),
    (assignIds n l).map core = l.map core := by
  intro l
  induction l with
  | nil => intro n; rfl
  | cons r rs ih =>
    intro n
    rw [show assignIds n (r :: rs) =
      { r with id := n + 1, has_comparison := bothPrices r } ::
        assignIds (n + 1) rs from rfl]
    rw [List.map_cons, List.map_cons, ih]
    rfl

theorem assignIds_id :
    ∀ (l : List UnifiedProduct) (n k : Nat) (r : UnifiedProduct),
    (assignIds n l)[k]? = some r → r.id = n + k + 1 := by
  intro l
  induction l with
  | nil => intro n k r h; simp [assignIds] at h
  | cons x xs ih =>
    intro n k r h
    rw [show assignIds n (x :: xs) =
      { x with id := n + 1, has_comparison := bothPrices x } ::
        assignIds (n + 1) xs from rfl] at h
    cases k with
    | zero =>
      rw [List.getElem?_cons_zero] at h
      injection h with h
      rw [← h]
    | succ k =>
      rw [List.getElem?_cons_succ] at h
      have := ih (n + 1) k r h
      omega

theorem assignIds_mem :
    ∀ (l : List UnifiedProduct) (n : Nat) (r : UnifiedProduct),
    r ∈ assignIds n l → ∃ x ∈ l, core r = core x := by
  intro l
  induction l with
  | nil => intro n r h; cases h
  | cons x xs ih =>
    intro n r h
    rw [show assignIds n (x :: xs) =
      { x with id := n + 1, has_comparison := bothPrices x } ::
        assignIds (n + 1) xs from rfl] at h
    rcases List.mem_cons.mp h with rfl | h2
    · exact ⟨x, List.mem_cons_self x xs, rfl⟩
    · obtain ⟨x', hx', hc⟩ := ih (n + 1) r h2
      exact ⟨x', List.mem_cons_of_mem x hx', hc⟩

theorem unified_fields (ext : String → Finset String) (sim : Nat → Nat → ℚ)
    (A B : List Product) :
    ∀ r ∈ unifiedList ext sim A B,
    (∃ a ∈ A, ∃ best : Option (Product × Nat),
      (best = none ∨ ∃ b ∈ B, ∃ j, best = some (b, j)) ∧
      ∃ k, r = mkAnchorRecord k a best) ∨
    (∃ b ∈ B, ∃ k, r = mkLeftoverRecord k b) := by
  intro r hr
  rcases List.mem_append.mp hr with h1 | h2
  · obtain ⟨k, hk⟩ := List.mem_iff_getElem?.mp h1
    obtain ⟨a, ha, best, hbp, hr'⟩ :=
      amzLoop_get sim (fkItems ext 0 B) (amzItems ext A) 0 [] k r hk
    have hamem : a ∈ amzItems ext A := List.mem_iff_getElem?.mpr ⟨k, ha⟩
    obtain ⟨p, hp, hap⟩ := List.mem_map.mp hamem
    refine Or.inl ⟨p, hp, best, ?_, 0 + k + 1, ?_⟩
    · rcases hbp with rfl | ⟨fk, hfm, rfl⟩
      · exact Or.inl rfl
      · exact Or.inr ⟨fk.p, (fkItems_mem ext B 0 fk hfm).1, fk.idx, rfl⟩
    · subst hap
      rw [hr']
  · obtain ⟨b, hb, k, hr'⟩ := fkLeftover_mem B ((runA ext sim A B).2)
      ((runA ext sim A B).1.length) 0 r h2
    exact Or.inr ⟨b, hb, k, hr'⟩

theorem qTruthy_eq_isSome {o : Option ℚ} (h : o ≠ some 0) :
    qTruthy o = o.isSome := by
  cases o with
  | none => rfl
  | some q =>
    have hq : q ≠ 0 := fun hq0 => h (by rw [hq0])
    simp [qTruthy, hq]

theorem unified_prices_truthy (ext : String → Finset String)
    (sim : Nat → Nat → ℚ) (A B : List Product)
    (hwA : wfPrices A) (hwB : wfPrices B) :
    ∀ r ∈ unifiedList ext sim A B, bothPrices r = presentBoth r := by
  intro r hr
  rcases unified_fields ext sim A B r hr with
    ⟨a, ha, best, hbp, k, rfl⟩ | ⟨b, hb, k, rfl⟩
  · have h1 : qTruthy a.price = a.price.isSome := qTruthy_eq_isSome (hwA a ha)
    rcases hbp with rfl | ⟨b, hbB, j, rfl⟩
    · simp [bothPrices, presentBoth, mkAnchorRecord, h1, qTruthy]
    · have h2 : qTruthy b.price = b.price.isSome :=
        qTruthy_eq_isSome (hwB b hbB)
      simp [bothPrices, presentBoth, mkAnchorRecord, h1, h2]
  · have h2 : qTruthy b.price = b.price.isSome := qTruthy_eq_isSome (hwB b hb)
    simp [bothPrices, presentBoth, mkLeftoverRecord, h2, qTruthy]

theorem matchProducts_eq (ext : String → Finset String) (sim : Nat → Nat → ℚ)
    (A B : List Product) (hA : A ≠ []) (hB : B ≠ []) :
    matchProducts ext sim A B =
      assignIds 0 ((unifiedList ext sim A B).filter bothPrices ++
        (unifiedList ext sim A B).filter notBoth) := by
  have hc : ¬((A.isEmpty || B.isEmpty) = true) := by
    simp only [Bool.or_eq_true, List.isEmpty_iff]
    rintro (h | h)
    · exact hA h
    · exact hB h
  unfold matchProducts
  rw [if_neg hc]

/-- Extractor stub for run-level witnesses: the two concrete titles get
explicitly storage-conflicting identifier sets. -/
def extCase : String → Finset String :=
  fun t => if t = ("Samsung Galaxy S21 128GB Black") then
    ({"storage_128gb"} : Finset String) else {"storage_256gb"}

/-- C1 counterexample: with one Amazon listing and an empty Flipkart side
the code returns the empty list, so the single A-listing gets no output
record at all — the claimed per-A-listing record does not exist for every
input pair, only for non-empty ones. -/
theorem match_empty_side_counterexample :
    matchProducts extEmpty simZero [pa] [] = [] ∧
    ([pa] : List Product).length = 1 := ⟨rfl, rfl⟩

/-- C1 amended: for non-empty inputs, the anchor phase yields exactly one
record per A-listing in order (with any matched side drawn from B), the
consumed-index set has no duplicates (so the price/link of each B-listing feeds
at most one record) and only valid B-indices, the final output is a
permutation of the anchor records plus the leftover records, and the
leftover records are exactly the never-consumed B-listings in order. -/
theorem match_run_invariants (ext : String → Finset String)
    (sim : Nat → Nat → ℚ) (A B : List Product) (hA : A ≠ []) (hB : B ≠ []) :
    ((runA ext sim A B).1.length = A.length) ∧
    ((runA ext sim A B).2.Nodup) ∧
    (∀ j ∈ (runA ext sim A B).2, j < B.length) ∧
    (∀ k r, (runA ext sim A B).1[k]? = some r →
      ∃ p, A[k]? = some p ∧ ∃ best : Option (Product × Nat),
        (best = none ∨ ∃ b ∈ B, ∃ j, best = some (b, j)) ∧
        r = mkAnchorRecord (k + 1) p best) ∧
    (((matchProducts ext sim A B).map core).Perm
      ((unifiedList ext sim A B).map core)) ∧
    ((fkLeftover (runA ext sim A B).2 (runA ext sim A B).1.length 0 B).map
        core =
      ((List.enumFrom 0 B).filter (notUsed (runA ext sim A B).2)).map
        leftCore) := by
  refine ⟨?_, ?_, ?_, ?_, ?_, ?_⟩
  · unfold runA
    rw [amzLoop_length]
    simp [amzItems]
  · exact (amzLoop_used sim (fkItems ext 0 B) (amzItems ext A) 0 []
      List.nodup_nil).1
  · intro j hj
    rcases (amzLoop_used sim (fkItems ext 0 B) (amzItems ext A) 0 []
      List.nodup_nil).2 j hj with h | ⟨fk, hfm, rfl⟩
    · exact absurd h (List.not_mem_nil j)
    · have := (fkItems_mem ext B 0 fk hfm).2.2
      omega
  · intro k r hk
    obtain ⟨a, ha, best, hbp, hr⟩ :=
      amzLoop_get sim (fkItems ext 0 B) (amzItems ext A) 0 [] k r hk
    rw [show amzItems ext A =
      A.map (fun p => (⟨p, ext p.title⟩ : AmzItem)) from rfl,
      List.getElem?_map] at ha
    cases hAk : A[k]? with
    | none =>
      rw [hAk] at ha
      cases ha
    | some p =>
      rw [hAk] at ha
      injection ha with ha
      refine ⟨p, rfl, best, ?_, ?_⟩
      · rcases hbp with rfl | ⟨fk, hfm, rfl⟩
        · exact Or.inl rfl
        · exact Or.inr ⟨fk.p, (fkItems_mem ext B 0 fk hfm).1, fk.idx, rfl⟩
      · rw [hr, ← ha]
        simp only [Nat.zero_add]
  · rw [matchProducts_eq ext sim A B hA hB, assignIds_map_core]
    rw [show (unifiedList ext sim A B).filter notBoth =
      (unifiedList ext sim A B).filter (fun x => ! bothPrices x) from rfl]
    exact List.Perm.map core
      (List.filter_append_perm bothPrices (unifiedList ext sim A B))
  · exact fkLeftover_core B ((runA ext sim A B).2)
      ((runA ext sim A B).1.length) 0

theorem match_run_invariants_witness :
    (runA extCase simZero [pa] [pb]).1.length =
      ([pa] : List Product).length :=
  (match_run_invariants extCase simZero [pa] [pb] (by simp) (by simp)).1

/-- C7: the final output carries ids `1, 2, 3, …` in output order, and (for
non-empty inputs, where the output is non-trivial) it is, record for
record, the stable partition of the unified list: all records with both
prices present first, then all others, each group in original order.  The
well-formedness hypotheses encode the data-model rule that a price is
positive or absent (never a literal zero), under which the truthiness test used by
the code coincides with presence. -/
theorem matchProducts_ordering (ext : String → Finset String)
    (sim : Nat → Nat → ℚ) (A B : List Product)
    (hwA : wfPrices A) (hwB : wfPrices B) :
    (∀ k r, (matchProducts ext sim A B)[k]? = some r → r.id = k + 1) ∧
    (A ≠ [] → B ≠ [] →
      (matchProducts ext sim A B).map core =
        ((unifiedList ext sim A B).filter presentBoth).map core ++
        ((unifiedList ext sim A B).filter lacksOne).map core) := by
  constructor
  · intro k r hk
    unfold matchProducts at hk
    split at hk
    · simp at hk
    · have := assignIds_id _ 0 k r hk
      omega
  · intro hA hB
    rw [matchProducts_eq ext sim A B hA hB, assignIds_map_core,
      List.map_append]
    congr 1
    · rw [List.filter_congr
        (fun r hr => unified_prices_truthy ext sim A B hwA hwB r hr)]
    · have hcong : ∀ r ∈ unifiedList ext sim A B, notBoth r = lacksOne r := by
        intro r hr
        rw [show notBoth r = ! bothPrices r from rfl,
          unified_prices_truthy ext sim A B hwA hwB r hr]
        rfl
      rw [List.filter_congr hcong]

theorem matchProducts_ordering_witness :
    (matchProducts extCase simZero [pa] [pb]).map core =
      ((unifiedList extCase simZero [pa] [pb]).filter presentBoth).map core ++
      ((unifiedList extCase simZero [pa] [pb]).filter lacksOne).map core :=
  (matchProducts_ordering extCase simZero [pa] [pb] (by decide) (by decide)).2
    (by simp) (by simp)

/-- C10: every output record draws `title`, `image` and `rating` from one
source listing: records built for an A-anchor take them (and the Amazon
price/link) from the A-listing even when matched, and leftover-B records
take them from the B-listing with `is_prime = false` and both Amazon fields
absent. -/
theorem matchProducts_field_sources (ext : String → Finset String)
    (sim : Nat → Nat → ℚ) (A B : List Product) (r : UnifiedProduct)
    (h : r ∈ matchProducts ext sim A B) :
    (∃ a ∈ A, r.title = a.title ∧ r.image = a.image ∧ r.rating = a.rating ∧
      r.is_prime = a.is_prime ∧ r.amazon_price = a.price ∧
      r.amazon_link = a.link) ∨
    (∃ b ∈ B, r.title = b.title ∧ r.image = b.image ∧ r.rating = b.rating ∧
      r.is_prime = false ∧ r.amazon_price = none ∧ r.amazon_link = none ∧
      r.flipkart_price = b.price ∧ r.flipkart_link = b.link) := by
  unfold matchProducts at h
  split at h
  · cases h
  · obtain ⟨r', hr', hcore⟩ := assignIds_mem _ 0 r h
    have hru : r' ∈ unifiedList ext sim A B := by
      rcases List.mem_append.mp hr' with h1 | h1
      · exact List.mem_of_mem_filter h1
      · exact List.mem_of_mem_filter h1
    have ht := congrArg RecordCore.title hcore
    have him := congrArg RecordCore.image hcore
    have hrt := congrArg RecordCore.rating hcore
    have hip := congrArg RecordCore.is_prime hcore
    have hapr := congrArg RecordCore.amazon_price hcore
    have hal := congrArg RecordCore.amazon_link hcore
    have hfp := congrArg RecordCore.flipkart_price hcore
    have hfl := congrArg RecordCore.flipkart_link hcore
    rcases unified_fields ext sim A B r' hru with
      ⟨a, ha, best, _, k, rfl⟩ | ⟨b, hb, k, rfl⟩
    · exact Or.inl ⟨a, ha, ht, him, hrt, hip, hapr, hal⟩
    · exact Or.inr ⟨b, hb, ht, him, hrt, hip, hapr, hal, hfp, hfl⟩

/-- The first output record of the concrete storage-conflicted run. -/
def r0 : UnifiedProduct :=
  ⟨1, "Samsung Galaxy S21 128GB Black", none, none, true, some 699,
   some ("a-link"), none, none, false⟩

theorem matchProducts_field_sources_witness :
    (∃ a ∈ ([pa] : List Product), r0.title = a.title ∧ r0.image = a.image ∧
      r0.rating = a.rating ∧ r0.is_prime = a.is_prime ∧
      r0.amazon_price = a.price ∧ r0.amazon_link = a.link) ∨
    (∃ b ∈ ([pb] : List Product), r0.title = b.title ∧ r0.image = b.image ∧
      r0.rating = b.rating ∧ r0.is_prime = false ∧ r0.amazon_price = none ∧
      r0.amazon_link = none ∧ r0.flipkart_price = b.price ∧
      r0.flipkart_link = b.link) :=
  matchProducts_field_sources extCase simZero [pa] [pb] r0 (by decide)
